import Mathlib

/-!
Shallow embedding of the multi-step dataset-cleaning pipeline of
`app.py` (route `limpiar_dataset_multiple`, lines 186-295), together with
theorems checking the natural-language specification against it.

A pandas `DataFrame` is modelled as a `Table`: a list of named, typed
columns plus a list of rows of cells.  A cell is a numeric value
(modelled as `ℚ`), a text value, or the missing marker (pandas `NaN`).
Pandas-specific behaviour is translated faithfully:
  * `df[col]` on an absent column raises `KeyError`, which the route's
    outer `try/except` turns into an aborted run — modelled as `Except`
    with a `keyError` value;
  * comparisons against `NaN` are false, so the outlier filter drops
    rows whose cell in the filtered column is missing;
  * `quantile` uses linear interpolation over the sorted non-missing
    values; an empty column yields `NaN` bounds, so the filter keeps
    nothing;
  * `min`/`max` skip missing values; a column whose non-missing values
    coincide is left unchanged by normalization;
  * `drop_duplicates` keeps the first occurrence and treats missing
    cells as equal.
-/

deriving instance DecidableEq for Except

inductive Cell where
  | num (v : ℚ)
  | str (s : String)
  | missing
deriving DecidableEq, Repr

def Cell.toNum : Cell → Option ℚ
  | .num v => some v
  | _ => none

inductive Dtype where
  | numeric
  | text
deriving DecidableEq, Repr

structure Col where
  name : String
  dtype : Dtype
deriving DecidableEq, Repr

structure Table where
  cols : List Col
  rows : List (List Cell)
deriving DecidableEq, Repr

/-- Well-formedness: every row has one cell per column. -/
def Table.Wf (t : Table) : Prop :=
  ∀ r ∈ t.rows, r.length = t.cols.length

instance (t : Table) : Decidable t.Wf := by
  unfold Table.Wf; infer_instance

/-- Index of a named column (`df[col]` lookup); `none` models `KeyError`. -/
def Table.colIdx (t : Table) (c : String) : Option Nat :=
  t.cols.findIdx? (fun col => col.name == c)

/-- Dtype of the column at index `i`. -/
def Table.colDtype (t : Table) (i : Nat) : Option Dtype :=
  (t.cols.get? i).map Col.dtype

/-- The cells of column `i`, one per row. -/
def Table.colCells (t : Table) (i : Nat) : List Cell :=
  t.rows.map (fun r => r.getD i Cell.missing)

/-- The non-missing numeric values of column `i` (pandas ops skip `NaN`). -/
def Table.colNumVals (t : Table) (i : Nat) : List ℚ :=
  (t.colCells i).filterMap Cell.toNum

/-- Names of the numeric columns, in order:
`list(df.select_dtypes(include=['float64','int64']).columns)`. -/
def Table.numericCols (t : Table) : List String :=
  (t.cols.filter (fun col => decide (col.dtype = Dtype.numeric))).map Col.name

/-- Parameters of one cleaning request (`parametros` dict); absent keys are `none`. -/
structure Params where
  metodo : Option String
  columnas : Option (List String)
  umbral : Option ℚ
deriving DecidableEq, Repr

def Params.empty : Params := ⟨none, none, none⟩

/-- One entry of `tipos_limpieza`: `{"tipo": ..., "parametros": {...}}`
(a bare string is the same with empty parameters). -/
structure Limpieza where
  tipo : String
  parametros : Params
deriving DecidableEq, Repr

inductive PipelineError where
  | missingInput
  | keyError (c : String)
deriving DecidableEq, Repr

/-- `drop_duplicates()` on the row list: keep the first occurrence of each
row, drop every later equal row. -/
def dedupFirst {α : Type} [DecidableEq α] : List α → List α
  | [] => []
  | r :: rs => r :: dedupFirst (rs.filter (fun x => decide (x ≠ r)))
termination_by l => l.length
decreasing_by
  simpa using Nat.lt_succ_of_le (List.length_filter_le _ rs)

/-- Insertion into a sorted list of rationals. -/
def insertSorted (x : ℚ) : List ℚ → List ℚ
  | [] => [x]
  | y :: ys => if x ≤ y then x :: y :: ys else y :: insertSorted x ys

/-- Insertion sort of a list of rationals. -/
def sortQ (l : List ℚ) : List ℚ :=
  l.foldr insertSorted []

/-- `Series.quantile(q)` with the default linear interpolation, over the
non-missing values `l`; meaningful when `l ≠ []` (pandas returns `NaN`
otherwise, which the callers below special-case). -/
def quantileD (l : List ℚ) (q : ℚ) : ℚ :=
  let s := sortQ l
  let pos : ℚ := q * ((s.length : ℚ) - 1)
  let i : Nat := ⌊pos⌋₊
  let g : ℚ := pos - (i : ℚ)
  let vi := s.getD i 0
  let vi1 := s.getD (i + 1) vi
  vi + g * (vi1 - vi)

/-- Minimum of a list of rationals (`Series.min()` over non-missing values). -/
def qmin : List ℚ → Option ℚ
  | [] => none
  | x :: xs => some (xs.foldl min x)

/-- Maximum of a list of rationals (`Series.max()` over non-missing values). -/
def qmax : List ℚ → Option ℚ
  | [] => none
  | x :: xs => some (xs.foldl max x)

/-- Mean over the non-missing numeric values of a column
(`df.mean(numeric_only=True)` for one column); `none` when there are no
values (pandas would give `NaN`, and `fillna` with `NaN` changes nothing). -/
def colMean (vs : List ℚ) : Option ℚ :=
  if vs = [] then none else some (vs.sum / (vs.length : ℚ))

/-- Per-column fill values for `df.fillna(df.mean(numeric_only=True))`:
`some m` exactly for numeric columns having at least one value. -/
def Table.colMeans (t : Table) : List (Option ℚ) :=
  (List.range t.cols.length).map (fun i =>
    if t.colDtype i = some Dtype.numeric then colMean (t.colNumVals i) else none)

/-- Fill the missing cells of one row from the per-column fill values. -/
def fillRow (fills : List (Option ℚ)) (r : List Cell) : List Cell :=
  List.zipWith (fun f c =>
    match c, f with
    | Cell.missing, some m => Cell.num m
    | c, _ => c) fills r

/-- Forward fill: each missing cell takes the last non-missing value seen
above it in its column (`prev` carries the running last-seen cells). -/
def ffillAux : List Cell → List (List Cell) → List (List Cell)
  | _, [] => []
  | prev, r :: rs =>
    let r' := List.zipWith (fun p c => if c = Cell.missing then p else c) prev r
    r' :: ffillAux r' rs

/-- `df.fillna(method='ffill')` on the row list (`n` = column count). -/
def ffill (n : Nat) (rows : List (List Cell)) : List (List Cell) :=
  ffillAux (List.replicate n Cell.missing) rows

/-- The `nulos` operation (lines 210-219): method dispatch with default
`drop`; only `drop` reports removed rows, every other branch reports 0. -/
def opNulos (t : Table) (p : Params) : Table × Nat :=
  let metodo := p.metodo.getD "drop"
  if metodo = "drop" then
    let rows' := t.rows.filter (fun r => decide (Cell.missing ∉ r))
    ({ t with rows := rows' }, t.rows.length - rows'.length)
  else if metodo = "ffill" then
    ({ t with rows := ffill t.cols.length t.rows }, 0)
  else if metodo = "bfill" then
    ({ t with rows := (ffill t.cols.length t.rows.reverse).reverse }, 0)
  else if metodo = "mean" then
    ({ t with rows := t.rows.map (fillRow t.colMeans) }, 0)
  else (t, 0)

/-- One iteration of the `outliers` column loop (lines 226-231):
`df[col]` may raise `KeyError`; non-numeric columns are skipped by the
dtype test; otherwise rows outside `[Q1 - u*IQR, Q3 + u*IQR]` are
dropped, and a missing cell fails both comparisons.  An all-missing
column gives `NaN` quantiles, so no row passes the filter. -/
def outlierStep (u : ℚ) (t : Table) (c : String) : Except PipelineError Table :=
  match t.colIdx c with
  | none => .error (.keyError c)
  | some i =>
    if t.colDtype i = some Dtype.numeric then
      let vals := t.colNumVals i
      if vals = [] then .ok { t with rows := [] }
      else
        let q1 := quantileD vals (1/4)
        let q3 := quantileD vals (3/4)
        let iqr := q3 - q1
        let lo := q1 - u * iqr
        let hi := q3 + u * iqr
        .ok { t with rows := t.rows.filter (fun r =>
          match r.getD i Cell.missing with
          | Cell.num v => decide (lo ≤ v) && decide (v ≤ hi)
          | _ => false) }
    else .ok t

/-- The `for col in columnas` loop of `outliers`: sequential filtering,
each column seeing the table left by the previous one. -/
def outliersFold (u : ℚ) : Table → List String → Except PipelineError Table
  | t, [] => .ok t
  | t, c :: cs =>
    match outlierStep u t c with
    | .error e => .error e
    | .ok t2 => outliersFold u t2 cs

/-- The `outliers` operation (lines 221-232): defaults `columnas` = all
numeric columns, `umbral` = 1.5; affected = row count before minus after. -/
def opOutliers (t : Table) (p : Params) : Except PipelineError (Table × Nat) :=
  let columnas := p.columnas.getD t.numericCols
  let umbral := p.umbral.getD (3/2)
  match outliersFold umbral t columnas with
  | .error e => .error e
  | .ok t2 => .ok (t2, t.rows.length - t2.rows.length)

/-- One iteration of the `normalizacion` column loop (lines 236-240):
`KeyError` on an absent column, skip of non-numeric columns, min-max
rescale guarded by `max != min`.  A column with no non-missing values has
`NaN` min and max, and rescaling by `NaN` leaves every cell `NaN`, i.e.
an unchanged column. -/
def normStep (t : Table) (c : String) : Except PipelineError Table :=
  match t.colIdx c with
  | none => .error (.keyError c)
  | some i =>
    if t.colDtype i = some Dtype.numeric then
      match qmin (t.colNumVals i), qmax (t.colNumVals i) with
      | some mn, some mx =>
        if mx = mn then .ok t
        else
          .ok { t with rows := t.rows.map (fun r =>
            r.set i (match r.getD i Cell.missing with
              | Cell.num v => Cell.num ((v - mn) / (mx - mn))
              | c => c)) }
      | _, _ => .ok t
    else .ok t

/-- The `for col in columnas` loop of `normalizacion`. -/
def normFold : Table → List String → Except PipelineError Table
  | t, [] => .ok t
  | t, c :: cs =>
    match normStep t c with
    | .error e => .error e
    | .ok t2 => normFold t2 cs

/-- The `normalizacion` operation (lines 234-240): default `columnas` =
all numeric columns; never changes `afectados`, which stays 0. -/
def opNormalizacion (t : Table) (p : Params) : Except PipelineError (Table × Nat) :=
  let columnas := p.columnas.getD t.numericCols
  match normFold t columnas with
  | .error e => .error e
  | .ok t2 => .ok (t2, 0)

/-- Dispatch on `tipo` (lines 203-240): the four known kinds, and any
unknown kind falls through every `elif` with `afectados = 0`. -/
def applyOp (t : Table) (d : Limpieza) : Except PipelineError (Table × Nat) :=
  if d.tipo = "duplicados" then
    let rows' := dedupFirst t.rows
    .ok ({ t with rows := rows' }, t.rows.length - rows'.length)
  else if d.tipo = "nulos" then .ok (opNulos t d.parametros)
  else if d.tipo = "outliers" then opOutliers t d.parametros
  else if d.tipo = "normalizacion" then opNormalizacion t d.parametros
  else .ok (t, 0)

/-- One entry of `operaciones_realizadas` (lines 242-246): the `tipo`,
the `parametros` dict exactly as supplied, and the affected count. -/
structure OpResult where
  tipo : String
  parametros : Params
  afectados : Nat
deriving DecidableEq, Repr

/-- The loop over `tipos_limpieza` (lines 193-247): thread the table,
record one `OpResult` per request, accumulate `total_afectados`. -/
def runOps : Table → List Limpieza → Except PipelineError (Table × List OpResult × Nat)
  | t, [] => .ok (t, [], 0)
  | t, d :: ds =>
    match applyOp t d with
    | .error e => .error e
    | .ok (t2, a) =>
      match runOps t2 ds with
      | .error e => .error e
      | .ok (tf, rs, tot) => .ok (tf, ⟨d.tipo, d.parametros, a⟩ :: rs, a + tot)

/-- Number of missing cells in the table (`df.isnull().sum().sum()`). -/
def Table.countMissing (t : Table) : Nat :=
  (t.rows.map (fun r => (r.filter (fun c => decide (c = Cell.missing))).length)).sum

/-- The aggregate statistics block (lines 279-285); `outliers` is the
hard-coded 0 of line 284. -/
structure Stats where
  total_filas : Nat
  total_columnas : Nat
  nulls : Nat
  duplicados : Nat
  outliers : Nat
deriving DecidableEq, Repr

def computeStats (t : Table) : Stats :=
  { total_filas := t.rows.length
    total_columnas := t.cols.length
    nulls := t.countMissing
    duplicados := t.rows.length - (dedupFirst t.rows).length
    outliers := 0 }

/-- The report of a completed run: `total_afectados`, the per-operation
list, and the aggregate statistics of the final table. -/
structure PipelineResult where
  table : Table
  total_afectados : Nat
  operaciones : List OpResult
  stats : Stats
deriving DecidableEq, Repr

/-- The route body (lines 157-295): an empty `tipos_limpieza` fails the
`if not dataset_id or not tipos_limpieza` test (an empty Python list is
falsy) and is rejected before any transform; otherwise the operation
loop runs and the statistics are computed over the final table. -/
def limpiar (t : Table) (ops : List Limpieza) : Except PipelineError PipelineResult :=
  if ops.isEmpty then .error .missingInput
  else
    match runOps t ops with
    | .error e => .error e
    | .ok (tf, rs, tot) => .ok ⟨tf, tot, rs, computeStats tf⟩


/-- Example table: the one-numeric-column outlier example of the spec
(`[1,2,3,4,100]`, bounds `[-1, 7]`). -/
def tblOutliers : Table :=
  ⟨[⟨"a", Dtype.numeric⟩],
   [[Cell.num 1], [Cell.num 2], [Cell.num 3], [Cell.num 4], [Cell.num 100]]⟩

/-- `tblOutliers` after the outlier filter removes the row `100`. -/
def tblOutliersRes : Table :=
  ⟨[⟨"a", Dtype.numeric⟩],
   [[Cell.num 1], [Cell.num 2], [Cell.num 3], [Cell.num 4]]⟩

/-- Example table: a numeric column with a missing cell plus a text column. -/
def tblMixed : Table :=
  ⟨[⟨"a", Dtype.numeric⟩, ⟨"t", Dtype.text⟩],
   [[Cell.num 1, Cell.str "x"], [Cell.missing, Cell.str "y"]]⟩

/-- `tblMixed` with the row holding the missing cell removed. -/
def tblMixedClean : Table :=
  ⟨[⟨"a", Dtype.numeric⟩, ⟨"t", Dtype.text⟩], [[Cell.num 1, Cell.str "x"]]⟩

/-- The full report of running `[{nulos}]` (default drop) on `tblMixed`. -/
def resNulosDrop : PipelineResult :=
  ⟨tblMixedClean, 1, [⟨"nulos", Params.empty, 1⟩], ⟨1, 2, 0, 0, 0⟩⟩

/-- Example table: one numeric column with two distinct values. -/
def tblNorm : Table := ⟨[⟨"b", Dtype.numeric⟩], [[Cell.num 1], [Cell.num 3]]⟩

/-- `tblNorm` after min-max normalization. -/
def tblNormRes : Table := ⟨[⟨"b", Dtype.numeric⟩], [[Cell.num 0], [Cell.num 1]]⟩


/-! ## Helper lemmas -/

theorem dedupFirst_sublist {α : Type} [DecidableEq α] (l : List α) :
    List.Sublist (dedupFirst l) l := by
  induction l using dedupFirst.induct with
  | case1 => simp [dedupFirst]
  | case2 r rs ih =>
    rw [dedupFirst]
    exact (ih.trans (List.filter_sublist rs)).cons₂ r

theorem mem_dedupFirst {α : Type} [DecidableEq α] (a : α) (l : List α) :
    a ∈ dedupFirst l ↔ a ∈ l := by
  induction l using dedupFirst.induct with
  | case1 => simp [dedupFirst]
  | case2 r rs ih =>
    rw [dedupFirst]
    by_cases ha : a = r
    · simp [ha]
    · simp only [List.mem_cons, ih, List.mem_filter, ha, decide_eq_true_eq, false_or,
        ne_eq, not_false_iff, and_true]

theorem nodup_dedupFirst {α : Type} [DecidableEq α] (l : List α) :
    (dedupFirst l).Nodup := by
  induction l using dedupFirst.induct with
  | case1 => simp [dedupFirst]
  | case2 r rs ih =>
    rw [dedupFirst]
    refine List.nodup_cons.2 ⟨fun hmem => ?_, ih⟩
    have := (mem_dedupFirst r _).1 hmem
    simp at this

theorem dedupFirst_of_nodup {α : Type} [DecidableEq α] (l : List α) (h : l.Nodup) :
    dedupFirst l = l := by
  induction l with
  | nil => simp [dedupFirst]
  | cons r rs ih =>
    rw [dedupFirst]
    have hfilter : rs.filter (fun x => decide (x ≠ r)) = rs := by
      apply List.filter_eq_self.2
      intro x hx
      simp only [decide_eq_true_eq, ne_eq]
      exact fun hxr => (List.nodup_cons.1 h).1 (hxr ▸ hx)
    rw [hfilter, ih (List.nodup_cons.1 h).2]

theorem dedupFirst_idem {α : Type} [DecidableEq α] (l : List α) :
    dedupFirst (dedupFirst l) = dedupFirst l :=
  dedupFirst_of_nodup _ (nodup_dedupFirst l)

theorem wf_of_rows_mem {t t2 : Table} (hcols : t2.cols = t.cols)
    (hmem : ∀ r ∈ t2.rows, r ∈ t.rows) (hwf : t.Wf) : t2.Wf := by
  intro r hr
  rw [hcols]
  exact hwf r (hmem r hr)


theorem outlierStep_ok_sub {u : ℚ} {t : Table} {c : String} {t2 : Table}
    (h : outlierStep u t c = Except.ok t2) :
    t2.cols = t.cols ∧ List.Sublist t2.rows t.rows := by
  unfold outlierStep at h
  split at h
  · cases h
  · simp only [] at h
    split at h
    · split at h
      · rw [Except.ok.injEq] at h
        subst h
        exact ⟨rfl, List.nil_sublist _⟩
      · rw [Except.ok.injEq] at h
        subst h
        exact ⟨rfl, List.filter_sublist _⟩
    · rw [Except.ok.injEq] at h
      subst h
      exact ⟨rfl, List.Sublist.refl _⟩

theorem outliersFold_ok_sub {u : ℚ} {t : Table} {cs : List String} {t2 : Table}
    (h : outliersFold u t cs = Except.ok t2) :
    t2.cols = t.cols ∧ List.Sublist t2.rows t.rows := by
  induction cs generalizing t with
  | nil =>
    unfold outliersFold at h
    rw [Except.ok.injEq] at h
    subst h
    exact ⟨rfl, List.Sublist.refl _⟩
  | cons c cs ih =>
    unfold outliersFold at h
    cases hstep : outlierStep u t c with
    | error e => rw [hstep] at h; cases h
    | ok tmid =>
      rw [hstep] at h
      obtain ⟨hc1, hs1⟩ := outlierStep_ok_sub hstep
      obtain ⟨hc2, hs2⟩ := ih h
      exact ⟨hc2.trans hc1, hs2.trans hs1⟩

theorem normStep_ok_facts {t : Table} {c : String} {t2 : Table}
    (h : normStep t c = Except.ok t2) :
    t2.cols = t.cols ∧ t2.rows.length = t.rows.length ∧ (t.Wf → t2.Wf) := by
  unfold normStep at h
  split at h
  · cases h
  · split at h
    · split at h
      · split at h
        · rw [Except.ok.injEq] at h
          subst h
          exact ⟨rfl, rfl, fun hwf => hwf⟩
        · rw [Except.ok.injEq] at h
          subst h
          refine ⟨rfl, by simp, fun hwf r2 hr2 => ?_⟩
          simp only [List.mem_map] at hr2
          obtain ⟨r, hr, rfl⟩ := hr2
          simpa using hwf r hr
      · rw [Except.ok.injEq] at h
        subst h
        exact ⟨rfl, rfl, fun hwf => hwf⟩
    · rw [Except.ok.injEq] at h
      subst h
      exact ⟨rfl, rfl, fun hwf => hwf⟩

theorem normFold_ok_facts {t : Table} {cs : List String} {t2 : Table}
    (h : normFold t cs = Except.ok t2) :
    t2.cols = t.cols ∧ t2.rows.length = t.rows.length ∧ (t.Wf → t2.Wf) := by
  induction cs generalizing t with
  | nil =>
    unfold normFold at h
    rw [Except.ok.injEq] at h
    subst h
    exact ⟨rfl, rfl, fun hwf => hwf⟩
  | cons c cs ih =>
    unfold normFold at h
    cases hstep : normStep t c with
    | error e => rw [hstep] at h; cases h
    | ok tmid =>
      rw [hstep] at h
      obtain ⟨hc1, hl1, hw1⟩ := normStep_ok_facts hstep
      obtain ⟨hc2, hl2, hw2⟩ := ih h
      exact ⟨hc2.trans hc1, hl2.trans hl1, fun hwf => hw2 (hw1 hwf)⟩

theorem ffillAux_length {n : ℕ} (rows : List (List Cell)) :
    ∀ (prev : List Cell), prev.length = n → (∀ r ∈ rows, r.length = n) →
    ∀ r2 ∈ ffillAux prev rows, r2.length = n := by
  induction rows with
  | nil => intro prev _ _ r2 hr2; simp [ffillAux] at hr2
  | cons r rs ih =>
    intro prev hprev hall r2 hr2
    unfold ffillAux at hr2
    simp only [List.mem_cons] at hr2
    have hlen : (List.zipWith (fun p c => if c = Cell.missing then p else c) prev r).length = n := by
      simp [List.length_zipWith, hprev, hall r (by(simp))]
    rcases hr2 with rfl | hr2
    · exact hlen
    · exact ih _ hlen (fun x hx => hall x (by simp [hx])) r2 hr2

theorem colMeans_length (t : Table) : t.colMeans.length = t.cols.length := by
  simp [Table.colMeans]

theorem fillRow_length {fills : List (Option ℚ)} {r : List Cell}
    (h : fills.length = r.length) : (fillRow fills r).length = r.length := by
  simp [fillRow, List.length_zipWith, h]

theorem opNulos_facts (t : Table) (p : Params) :
    (opNulos t p).1.cols = t.cols ∧ (t.Wf → (opNulos t p).1.Wf) := by
  simp only [opNulos]
  split
  · exact ⟨rfl, fun hwf r hr => hwf r (List.mem_filter.1 hr).1⟩
  · split
    · refine ⟨rfl, fun hwf r2 hr2 => ?_⟩
      exact ffillAux_length t.rows _ (by simp) (fun r hr => hwf r hr) r2 hr2
    · split
      · refine ⟨rfl, fun hwf r2 hr2 => ?_⟩
        simp only [List.mem_reverse] at hr2
        exact ffillAux_length t.rows.reverse _ (by simp)
          (fun r hr => hwf r (List.mem_reverse.1 hr)) r2 hr2
      · split
        · refine ⟨rfl, fun hwf r2 hr2 => ?_⟩
          simp only [List.mem_map] at hr2
          obtain ⟨r, hr, rfl⟩ := hr2
          rw [fillRow_length]
          · exact hwf r hr
          · rw [colMeans_length, hwf r hr]
        · exact ⟨rfl, fun hwf => hwf⟩

theorem opOutliers_ok_facts {t : Table} {p : Params} {t2 : Table} {a : ℕ}
    (h : opOutliers t p = Except.ok (t2, a)) :
    t2.cols = t.cols ∧ List.Sublist t2.rows t.rows ∧ a = t.rows.length - t2.rows.length := by
  simp only [opOutliers] at h
  cases hf : outliersFold (p.umbral.getD (3/2)) t (p.columnas.getD t.numericCols) with
  | error e => rw [hf] at h; cases h
  | ok tmid =>
    rw [hf] at h
    rw [Except.ok.injEq, Prod.mk.injEq] at h
    obtain ⟨rfl, rfl⟩ := h
    obtain ⟨hc, hs⟩ := outliersFold_ok_sub hf
    exact ⟨hc, hs, rfl⟩

theorem opNormalizacion_ok_facts {t : Table} {p : Params} {t2 : Table} {a : ℕ}
    (h : opNormalizacion t p = Except.ok (t2, a)) :
    t2.cols = t.cols ∧ t2.rows.length = t.rows.length ∧ (t.Wf → t2.Wf) ∧ a = 0 := by
  simp only [opNormalizacion] at h
  cases hf : normFold t (p.columnas.getD t.numericCols) with
  | error e => rw [hf] at h; cases h
  | ok tmid =>
    rw [hf] at h
    rw [Except.ok.injEq, Prod.mk.injEq] at h
    obtain ⟨rfl, rfl⟩ := h
    obtain ⟨hc, hl, hw⟩ := normFold_ok_facts hf
    exact ⟨hc, hl, hw, rfl⟩

theorem applyOp_preserves {t : Table} {d : Limpieza} {t2 : Table} {a : ℕ}
    (h : applyOp t d = Except.ok (t2, a)) :
    t2.cols = t.cols ∧ (t.Wf → t2.Wf) := by
  unfold applyOp at h
  split at h
  · rw [Except.ok.injEq, Prod.mk.injEq] at h
    obtain ⟨rfl, rfl⟩ := h
    exact ⟨rfl, fun hwf r hr => hwf r ((mem_dedupFirst r t.rows).1 hr)⟩
  · split at h
    · rw [Except.ok.injEq] at h
      obtain ⟨hfst, _⟩ : (opNulos t d.parametros).1 = t2 ∧ (opNulos t d.parametros).2 = a := by
        constructor <;> rw [h]
      obtain ⟨hc, hw⟩ := opNulos_facts t d.parametros
      rw [hfst] at hc hw
      exact ⟨hc, hw⟩
    · split at h
      · obtain ⟨hc, _, _⟩ := opOutliers_ok_facts h
        exact ⟨hc, fun hwf => wf_of_rows_mem hc
          (fun r hr => (opOutliers_ok_facts h).2.1.mem hr) hwf⟩
      · split at h
        · obtain ⟨hc, _, hw, _⟩ := opNormalizacion_ok_facts h
          exact ⟨hc, hw⟩
        · rw [Except.ok.injEq, Prod.mk.injEq] at h
          obtain ⟨rfl, rfl⟩ := h
          exact ⟨rfl, fun hwf => hwf⟩

theorem runOps_preserves {t : Table} {ds : List Limpieza} {tf : Table}
    {rs : List OpResult} {tot : ℕ}
    (h : runOps t ds = Except.ok (tf, rs, tot)) :
    tf.cols = t.cols ∧ (t.Wf → tf.Wf) := by
  induction ds generalizing t rs tot with
  | nil =>
    unfold runOps at h
    rw [Except.ok.injEq, Prod.mk.injEq] at h
    obtain ⟨rfl, _⟩ := h
    exact ⟨rfl, fun hwf => hwf⟩
  | cons d ds ih =>
    unfold runOps at h
    cases hap : applyOp t d with
    | error e => rw [hap] at h; cases h
    | ok pr =>
      rw [hap] at h
      obtain ⟨t2, a⟩ := pr
      dsimp only [] at h
      cases hrun : runOps t2 ds with
      | error e => rw [hrun] at h; cases h
      | ok trip =>
        rw [hrun] at h
        obtain ⟨tf2, rs2, tot2⟩ := trip
        rw [Except.ok.injEq, Prod.mk.injEq] at h
        obtain ⟨rfl, _⟩ := h
        obtain ⟨hc1, hw1⟩ := applyOp_preserves hap
        obtain ⟨hc2, hw2⟩ := ih hrun
        exact ⟨hc2.trans hc1, fun hwf => hw2 (hw1 hwf)⟩

theorem runOps_operaciones {t : Table} {ds : List Limpieza} {tf : Table}
    {rs : List OpResult} {tot : ℕ}
    (h : runOps t ds = Except.ok (tf, rs, tot)) :
    rs.map (fun o => (o.tipo, o.parametros)) = ds.map (fun d => (d.tipo, d.parametros)) := by
  induction ds generalizing t rs tot with
  | nil =>
    unfold runOps at h
    rw [Except.ok.injEq, Prod.mk.injEq] at h
    obtain ⟨-, h⟩ := h
    rw [Prod.mk.injEq] at h
    obtain ⟨rfl, -⟩ := h
    simp
  | cons d ds ih =>
    unfold runOps at h
    cases hap : applyOp t d with
    | error e => rw [hap] at h; cases h
    | ok pr =>
      rw [hap] at h
      obtain ⟨t2, a⟩ := pr
      dsimp only [] at h
      cases hrun : runOps t2 ds with
      | error e => rw [hrun] at h; cases h
      | ok trip =>
        rw [hrun] at h
        obtain ⟨tf2, rs2, tot2⟩ := trip
        rw [Except.ok.injEq, Prod.mk.injEq] at h
        obtain ⟨rfl, h⟩ := h
        rw [Prod.mk.injEq] at h
        obtain ⟨rfl, rfl⟩ := h
        simpa using ih hrun

theorem limpiar_ok_shape {t : Table} {ops : List Limpieza} {r : PipelineResult}
    (h : limpiar t ops = Except.ok r) :
    ∃ tf rs tot, runOps t ops = Except.ok (tf, rs, tot) ∧
      r = ⟨tf, tot, rs, computeStats tf⟩ := by
  unfold limpiar at h
  split at h
  · cases h
  · cases hrun : runOps t ops with
    | error e => rw [hrun] at h; cases h
    | ok trip =>
      rw [hrun] at h
      obtain ⟨tf, rs, tot⟩ := trip
      rw [Except.ok.injEq] at h
      exact ⟨tf, rs, tot, rfl, h.symm⟩

theorem foldl_min_le_init (x : ℚ) (xs : List ℚ) : xs.foldl min x ≤ x := by
  induction xs generalizing x with
  | nil => exact le_refl x
  | cons y ys ih => exact le_trans (ih (min x y)) (min_le_left x y)

theorem init_le_foldl_max (x : ℚ) (xs : List ℚ) : x ≤ xs.foldl max x := by
  induction xs generalizing x with
  | nil => exact le_refl x
  | cons y ys ih => exact le_trans (le_max_left x y) (ih (max x y))

theorem qmin_le_qmax {vs : List ℚ} {mn mx : ℚ}
    (hmn : qmin vs = some mn) (hmx : qmax vs = some mx) : mn ≤ mx := by
  cases vs with
  | nil => cases hmn
  | cons x xs =>
    unfold qmin at hmn
    unfold qmax at hmx
    rw [Option.some.injEq] at hmn hmx
    subst hmn
    subst hmx
    exact le_trans (foldl_min_le_init x xs) (init_le_foldl_max x xs)

theorem foldl_min_map_mono (f : ℚ → ℚ) (hf : Monotone f) (x : ℚ) (xs : List ℚ) :
    (xs.map f).foldl min (f x) = f (xs.foldl min x) := by
  induction xs generalizing x with
  | nil => rfl
  | cons y ys ih =>
    simp only [List.map_cons, List.foldl_cons]
    rw [← hf.map_min, ih]

theorem foldl_max_map_mono (f : ℚ → ℚ) (hf : Monotone f) (x : ℚ) (xs : List ℚ) :
    (xs.map f).foldl max (f x) = f (xs.foldl max x) := by
  induction xs generalizing x with
  | nil => rfl
  | cons y ys ih =>
    simp only [List.map_cons, List.foldl_cons]
    rw [← hf.map_max, ih]

theorem qmin_map_mono (f : ℚ → ℚ) (hf : Monotone f) (vs : List ℚ) :
    qmin (vs.map f) = (qmin vs).map f := by
  cases vs with
  | nil => rfl
  | cons x xs =>
    simp only [qmin, List.map_cons, Option.map_some']
    rw [Option.some.injEq]
    exact foldl_min_map_mono f hf x xs

theorem qmax_map_mono (f : ℚ → ℚ) (hf : Monotone f) (vs : List ℚ) :
    qmax (vs.map f) = (qmax vs).map f := by
  cases vs with
  | nil => rfl
  | cons x xs =>
    simp only [qmax, List.map_cons, Option.map_some']
    rw [Option.some.injEq]
    exact foldl_max_map_mono f hf x xs

theorem rescale_monotone {mn mx : ℚ} (hlt : mn < mx) :
    Monotone (fun v => (v - mn) / (mx - mn)) := by
  intro a b hab
  have hd : (0:ℚ) < mx - mn := by linarith
  exact div_le_div_of_nonneg_right (by linarith) hd.le

theorem colDtype_lt {t : Table} {i : ℕ} {d : Dtype} (h : t.colDtype i = some d) :
    i < t.cols.length := by
  unfold Table.colDtype at h
  rw [Option.map_eq_some'] at h
  obtain ⟨col, hcol, -⟩ := h
  exact (List.get?_eq_some.1 hcol).1

theorem normStep_some (t : Table) (c : String) (i : ℕ) (hidx : t.colIdx c = some i) :
    normStep t c =
      (if t.colDtype i = some Dtype.numeric then
        match qmin (t.colNumVals i), qmax (t.colNumVals i) with
        | some mn, some mx =>
          if mx = mn then Except.ok t
          else
            Except.ok { t with rows := t.rows.map (fun r =>
              r.set i (match r.getD i Cell.missing with
                | Cell.num v => Cell.num ((v - mn) / (mx - mn))
                | c => c)) }
        | _, _ => Except.ok t
      else Except.ok t) := by
  unfold normStep
  rw [hidx]

theorem outlierStep_some (u : ℚ) (t : Table) (c : String) (i : ℕ)
    (hidx : t.colIdx c = some i) :
    outlierStep u t c =
      (if t.colDtype i = some Dtype.numeric then
        if t.colNumVals i = [] then Except.ok { t with rows := [] }
        else
          Except.ok { t with rows := t.rows.filter (fun r =>
            match r.getD i Cell.missing with
            | Cell.num v =>
              decide (quantileD (t.colNumVals i) (1/4) -
                  u * (quantileD (t.colNumVals i) (3/4) - quantileD (t.colNumVals i) (1/4)) ≤ v) &&
              decide (v ≤ quantileD (t.colNumVals i) (3/4) +
                  u * (quantileD (t.colNumVals i) (3/4) - quantileD (t.colNumVals i) (1/4)))
            | _ => false) }
      else Except.ok t) := by
  unfold outlierStep
  rw [hidx]

theorem outlierStep_missing_removed {u : ℚ} {t : Table} {c : String} {i : ℕ} {t2 : Table}
    (h : outlierStep u t c = Except.ok t2)
    (hidx : t.colIdx c = some i) (hdty : t.colDtype i = some Dtype.numeric) :
    ∀ r, r.getD i Cell.missing = Cell.missing → r ∉ t2.rows := by
  rw [outlierStep_some u t c i hidx, if_pos hdty] at h
  split at h
  · rw [Except.ok.injEq] at h
    subst h
    intro r _ hmem
    simp at hmem
  · rw [Except.ok.injEq] at h
    subst h
    intro r hmiss hmem
    have := List.mem_filter.1 hmem
    rw [hmiss] at this
    simp at this

theorem filterMap_toNum_rescale (f : ℚ → ℚ) (cells : List Cell) :
    (cells.map (fun c => match c with | Cell.num v => Cell.num (f v) | c => c)).filterMap
        Cell.toNum = (cells.filterMap Cell.toNum).map f := by
  induction cells with
  | nil => rfl
  | cons c cs ih => cases c <;> simp [Cell.toNum, ih]

theorem normStep_rescale {t : Table} {c : String} {t2 : Table} {i : ℕ} {mn mx : ℚ}
    (h : normStep t c = Except.ok t2) (hwf : t.Wf)
    (hidx : t.colIdx c = some i) (hdty : t.colDtype i = some Dtype.numeric)
    (hmn : qmin (t.colNumVals i) = some mn) (hmx : qmax (t.colNumVals i) = some mx)
    (hne : mx ≠ mn) :
    t2.colNumVals i = (t.colNumVals i).map (fun v => (v - mn) / (mx - mn)) := by
  rw [normStep_some t c i hidx, if_pos hdty, hmn, hmx] at h
  dsimp only [] at h
  rw [if_neg hne, Except.ok.injEq] at h
  subst h
  show ((t.rows.map _).map _).filterMap Cell.toNum = _
  rw [List.map_map]
  have hcell : ∀ r ∈ t.rows,
      ((fun r : List Cell => r.set i (match r.getD i Cell.missing with
          | Cell.num v => Cell.num ((v - mn) / (mx - mn))
          | c => c)) r).getD i Cell.missing =
        (match r.getD i Cell.missing with
          | Cell.num v => Cell.num ((v - mn) / (mx - mn))
          | c => c) := by
    intro r hr
    have hi : i < r.length := by
      rw [hwf r hr]
      exact colDtype_lt hdty
    simp [List.getD_eq_getElem?_getD, List.getElem?_set, hi]
  calc (t.rows.map fun r => ((fun r : List Cell => r.set i (match r.getD i Cell.missing with
          | Cell.num v => Cell.num ((v - mn) / (mx - mn))
          | c => c)) r).getD i Cell.missing).filterMap Cell.toNum
      = (t.rows.map fun r => (match r.getD i Cell.missing with
          | Cell.num v => Cell.num ((v - mn) / (mx - mn))
          | c => c)).filterMap Cell.toNum := by
        rw [List.map_congr_left hcell]
    _ = ((t.rows.map fun r => r.getD i Cell.missing).map (fun c => match c with
          | Cell.num v => Cell.num ((v - mn) / (mx - mn))
          | c => c)).filterMap Cell.toNum := by
        rw [List.map_map]
        rfl
    _ = (t.colNumVals i).map (fun v => (v - mn) / (mx - mn)) := by
        rw [filterMap_toNum_rescale]
        rfl

theorem normStep_const {t : Table} {c : String} {t2 : Table} {i : ℕ} {mn mx : ℚ}
    (h : normStep t c = Except.ok t2)
    (hidx : t.colIdx c = some i) (hdty : t.colDtype i = some Dtype.numeric)
    (hmn : qmin (t.colNumVals i) = some mn) (hmx : qmax (t.colNumVals i) = some mx)
    (heq : mx = mn) : t2 = t := by
  rw [normStep_some t c i hidx, if_pos hdty, hmn, hmx] at h
  dsimp only [] at h
  rw [if_pos heq, Except.ok.injEq] at h
  exact h.symm

theorem normStep_skip {t : Table} {c : String} {i : ℕ}
    (hidx : t.colIdx c = some i) (hdty : ¬ t.colDtype i = some Dtype.numeric) :
    normStep t c = Except.ok t := by
  rw [normStep_some t c i hidx, if_neg hdty]

theorem normStep_absent {t : Table} {c : String} (hidx : t.colIdx c = none) :
    normStep t c = Except.error (PipelineError.keyError c) := by
  unfold normStep
  rw [hidx]

theorem outlierStep_skip {u : ℚ} {t : Table} {c : String} {i : ℕ}
    (hidx : t.colIdx c = some i) (hdty : ¬ t.colDtype i = some Dtype.numeric) :
    outlierStep u t c = Except.ok t := by
  rw [outlierStep_some u t c i hidx, if_neg hdty]

theorem outlierStep_absent {u : ℚ} {t : Table} {c : String} (hidx : t.colIdx c = none) :
    outlierStep u t c = Except.error (PipelineError.keyError c) := by
  unfold outlierStep
  rw [hidx]

theorem outliersFold_cons_ok {u : ℚ} {t t2 : Table} {c : String} {cs : List String}
    (hstep : outlierStep u t c = Except.ok t2) :
    outliersFold u t (c :: cs) = outliersFold u t2 cs := by
  have h0 : outliersFold u t (c :: cs) =
      (match outlierStep u t c with
        | Except.error e => Except.error e
        | Except.ok t2 => outliersFold u t2 cs) := rfl
  rw [h0, hstep]

theorem outliersFold_cons_err {u : ℚ} {t : Table} {c : String} {cs : List String}
    {e : PipelineError} (hstep : outlierStep u t c = Except.error e) :
    outliersFold u t (c :: cs) = Except.error e := by
  unfold outliersFold
  rw [hstep]

theorem normFold_cons_ok {t t2 : Table} {c : String} {cs : List String}
    (hstep : normStep t c = Except.ok t2) :
    normFold t (c :: cs) = normFold t2 cs := by
  have h0 : normFold t (c :: cs) =
      (match normStep t c with
        | Except.error e => Except.error e
        | Except.ok t2 => normFold t2 cs) := rfl
  rw [h0, hstep]

theorem normFold_cons_err {t : Table} {c : String} {cs : List String}
    {e : PipelineError} (hstep : normStep t c = Except.error e) :
    normFold t (c :: cs) = Except.error e := by
  unfold normFold
  rw [hstep]

theorem opNulos_mean_eq {t : Table} {p : Params} (hp : p.metodo = some "mean") :
    opNulos t p = ({ t with rows := t.rows.map (fillRow t.colMeans) }, 0) := by
  simp only [opNulos, hp, Option.getD_some]
  rw [if_neg (by decide), if_neg (by decide), if_neg (by decide), if_pos trivial]

theorem fillRow_getD {fills : List (Option ℚ)} {r : List Cell} {i : ℕ}
    (hlen : fills.length = r.length) (hi : i < r.length) :
    (fillRow fills r).getD i Cell.missing =
      (match r.getD i Cell.missing, fills.getD i none with
        | Cell.missing, some m => Cell.num m
        | c, _ => c) := by
  have hif : i < fills.length := hlen ▸ hi
  rw [List.getD_eq_getElem?_getD, List.getD_eq_getElem?_getD, List.getD_eq_getElem?_getD]
  unfold fillRow
  rw [List.getElem?_zipWith', List.getElem?_eq_getElem hif, List.getElem?_eq_getElem hi]
  simp only [Option.map_some', Option.some_bind, Option.getD_some]

theorem colMeans_getD {t : Table} {i : ℕ} (hi : i < t.cols.length) :
    t.colMeans.getD i none =
      (if t.colDtype i = some Dtype.numeric then colMean (t.colNumVals i) else none) := by
  unfold Table.colMeans
  rw [List.getD_eq_getElem?_getD, List.getElem?_map, List.getElem?_range hi]
  simp

theorem mean_fill_cell {t : Table} {r : List Cell} {i : ℕ}
    (hwf : t.Wf) (hr : r ∈ t.rows) (hi : i < t.cols.length) :
    (fillRow t.colMeans r).getD i Cell.missing =
      (match r.getD i Cell.missing,
          (if t.colDtype i = some Dtype.numeric then colMean (t.colNumVals i) else none) with
        | Cell.missing, some m => Cell.num m
        | c, _ => c) := by
  have hlen : t.colMeans.length = r.length := by
    rw [colMeans_length, hwf r hr]
  rw [fillRow_getD hlen (by rw [hwf r hr]; exact hi), colMeans_getD hi]

theorem tblOutliers_vals : tblOutliers.colNumVals 0 = [1, 2, 3, 4, 100] := by
  norm_num [Table.colNumVals, Table.colCells, Cell.toNum, tblOutliers, List.filterMap_cons]

theorem quantile_q1_ex : quantileD [1, 2, 3, 4, 100] (1/4) = 2 := by
  norm_num [quantileD, sortQ, insertSorted]

theorem quantile_q3_ex : quantileD [1, 2, 3, 4, 100] (3/4) = 4 := by
  norm_num [quantileD, sortQ, insertSorted]

theorem tblOutliers_step : outlierStep (3/2) tblOutliers "a" = Except.ok tblOutliersRes := by
  rw [outlierStep_some (3/2) tblOutliers "a" 0 (by decide), if_pos (by decide), tblOutliers_vals,
    if_neg (by simp), quantile_q1_ex, quantile_q3_ex]
  norm_num [tblOutliers, tblOutliersRes, List.filter]

theorem tblOutliers_op :
    opOutliers tblOutliers Params.empty = Except.ok (tblOutliersRes, 1) := by
  simp only [opOutliers]
  rw [show Params.empty.columnas.getD tblOutliers.numericCols = ["a"] from by decide]
  rw [show Params.empty.umbral.getD (3/2) = 3/2 from rfl]
  rw [outliersFold_cons_ok tblOutliers_step]
  norm_num [outliersFold, tblOutliers, tblOutliersRes]

theorem tblMixed_vals : tblMixed.colNumVals 0 = [1] := by
  norm_num [Table.colNumVals, Table.colCells, Cell.toNum, tblMixed, List.filterMap_cons]

theorem tblMixed_step : outlierStep (3/2) tblMixed "a" = Except.ok tblMixedClean := by
  rw [outlierStep_some (3/2) tblMixed "a" 0 (by decide), if_pos (by decide), tblMixed_vals,
    if_neg (by simp)]
  norm_num [quantileD, sortQ, insertSorted, tblMixed, tblMixedClean, List.filter]

theorem tblNorm_vals : tblNorm.colNumVals 0 = [1, 3] := by
  norm_num [Table.colNumVals, Table.colCells, Cell.toNum, tblNorm, List.filterMap_cons]

theorem tblNorm_step : normStep tblNorm "b" = Except.ok tblNormRes := by
  rw [normStep_some tblNorm "b" 0 (by decide), if_pos (by decide), tblNorm_vals]
  rw [show qmin [(1:ℚ), 3] = some 1 from by norm_num [qmin]]
  rw [show qmax [(1:ℚ), 3] = some 3 from by norm_num [qmax]]
  dsimp only []
  rw [if_neg (by norm_num)]
  norm_num [tblNorm, tblNormRes, List.set]

theorem tblNorm_op : opNormalizacion tblNorm Params.empty = Except.ok (tblNormRes, 0) := by
  simp only [opNormalizacion]
  rw [show Params.empty.columnas.getD tblNorm.numericCols = ["b"] from by decide]
  rw [normFold_cons_ok tblNorm_step]
  norm_num [normFold]

theorem tblMixed_nulos_apply :
    applyOp tblMixed ⟨"nulos", Params.empty⟩ = Except.ok (tblMixedClean, 1) := by
  simp only [applyOp]
  rw [if_neg (by decide), if_pos trivial]
  norm_num [opNulos, Params.empty, tblMixed, tblMixedClean, List.filter,
    show decide (Cell.missing = Cell.num 1) = false from rfl,
    show decide (Cell.missing = Cell.str "x") = false from rfl]

theorem tblMixed_nulos_run :
    limpiar tblMixed [⟨"nulos", Params.empty⟩] = Except.ok resNulosDrop := by
  simp only [limpiar]
  rw [if_neg (by decide)]
  have h2 : runOps tblMixed [⟨"nulos", Params.empty⟩] =
      Except.ok (tblMixedClean, [⟨"nulos", Params.empty, 1⟩], 1) := by
    unfold runOps
    rw [tblMixed_nulos_apply]
    dsimp only []
    norm_num [runOps]
  rw [h2]
  dsimp only []
  norm_num [computeStats, resNulosDrop, Table.countMissing, tblMixedClean, dedupFirst,
    List.filter, show decide (Cell.num 1 = Cell.missing) = false from rfl,
    show decide (Cell.str "x" = Cell.missing) = false from rfl]

theorem tblMixed_outliers_zz :
    limpiar tblMixed [⟨"outliers", ⟨none, some ["zz"], none⟩⟩] =
      Except.error (PipelineError.keyError "zz") := by
  have h1 : applyOp tblMixed ⟨"outliers", ⟨none, some ["zz"], none⟩⟩ =
      Except.error (PipelineError.keyError "zz") := by
    simp only [applyOp]
    rw [if_neg (by decide), if_neg (by decide), if_pos trivial]
    simp only [opOutliers, Option.getD_some]
    rw [outliersFold_cons_err (outlierStep_absent (by decide))]
  simp only [limpiar]
  rw [if_neg (by decide)]
  unfold runOps
  rw [h1]

theorem tblMixed_norm_zz :
    limpiar tblMixed [⟨"normalizacion", ⟨none, some ["zz"], none⟩⟩] =
      Except.error (PipelineError.keyError "zz") := by
  have h1 : applyOp tblMixed ⟨"normalizacion", ⟨none, some ["zz"], none⟩⟩ =
      Except.error (PipelineError.keyError "zz") := by
    simp only [applyOp]
    rw [if_neg (by decide), if_neg (by decide), if_neg (by decide), if_pos trivial]
    simp only [opNormalizacion, Option.getD_some]
    rw [normFold_cons_err (normStep_absent (by decide))]
  simp only [limpiar]
  rw [if_neg (by decide)]
  unfold runOps
  rw [h1]

/-- C1: For the outliers operation, umbral defaults to 1.5 and columnas to
all numeric columns; the listed columns are filtered sequentially in the
given order, each numeric column's bounds Q1 - umbral*IQR and Q3 + umbral*IQR
being computed over that column's values in the table state left by the
previous column's filter, and every row whose value in that column falls
outside the bounds is removed; the reported affected count equals the row
count before the whole operation minus the row count after all columns have
been filtered. -/
theorem outliers_sequential_iqr_filtering
    {t t2 : Table} {p : Params} {a : ℕ}
    (h : opOutliers t p = Except.ok (t2, a)) :
    outliersFold (p.umbral.getD (3/2)) t (p.columnas.getD t.numericCols) = Except.ok t2
    ∧ a = t.rows.length - t2.rows.length
    ∧ t2.rows.length ≤ t.rows.length
    ∧ (∀ (s s2 : Table) (c : String) (cs : List String),
        outlierStep (p.umbral.getD (3/2)) s c = Except.ok s2 →
        outliersFold (p.umbral.getD (3/2)) s (c :: cs) =
          outliersFold (p.umbral.getD (3/2)) s2 cs)
    ∧ (∀ (s : Table) (c : String) (i : ℕ),
        s.colIdx c = some i → s.colDtype i = some Dtype.numeric →
        s.colNumVals i ≠ [] →
        outlierStep (p.umbral.getD (3/2)) s c = Except.ok
          { s with rows := s.rows.filter (fun r =>
            match r.getD i Cell.missing with
            | Cell.num v =>
              decide (quantileD (s.colNumVals i) (1/4) -
                  p.umbral.getD (3/2) * (quantileD (s.colNumVals i) (3/4) -
                    quantileD (s.colNumVals i) (1/4)) ≤ v) &&
              decide (v ≤ quantileD (s.colNumVals i) (3/4) +
                  p.umbral.getD (3/2) * (quantileD (s.colNumVals i) (3/4) -
                    quantileD (s.colNumVals i) (1/4)))
            | _ => false) }) := by
  simp only [opOutliers] at h
  cases hf : outliersFold (p.umbral.getD (3/2)) t (p.columnas.getD t.numericCols) with
  | error e => rw [hf] at h; cases h
  | ok tmid =>
    rw [hf] at h
    rw [Except.ok.injEq, Prod.mk.injEq] at h
    obtain ⟨rfl, rfl⟩ := h
    refine ⟨rfl, rfl, (outliersFold_ok_sub hf).2.length_le,
      fun s s2 c cs hs => outliersFold_cons_ok hs,
      fun s c i hidx hdty hne => ?_⟩
    rw [outlierStep_some _ s c i hidx, if_pos hdty, if_neg hne]

/-- C1 witness: the [1,2,3,4,100] table with default parameters removes
exactly the row 100, with affected 1 = 5 - 4. -/
theorem outliers_sequential_iqr_filtering_witness :
    outliersFold (Params.empty.umbral.getD (3/2)) tblOutliers
        (Params.empty.columnas.getD tblOutliers.numericCols) = Except.ok tblOutliersRes
    ∧ 1 = tblOutliers.rows.length - tblOutliersRes.rows.length
    ∧ tblOutliersRes.rows.length ≤ tblOutliers.rows.length := by
  obtain ⟨h1, h2, h3, -, -⟩ := outliers_sequential_iqr_filtering tblOutliers_op
  exact ⟨h1, h2, h3⟩

/-- C2 counterexample: on a concrete table, the empty operation list is
rejected as a missing-input error rather than succeeding with the table
unchanged and total 0. -/
theorem empty_ops_rejected_counterexample :
    limpiar tblMixed [] = Except.error PipelineError.missingInput := rfl

/-- C2 (amended): for every table, running the pipeline with an empty
operation list fails the missing-input validation (an empty list is falsy),
so the run is rejected before any transform. -/
theorem empty_ops_rejected (t : Table) :
    limpiar t [] = Except.error PipelineError.missingInput := rfl

/-- C3 counterexample: a column name absent from the table is not silently
skipped: both outliers and normalizacion raise a key error and the
pipeline run aborts with that error. -/
theorem absent_column_aborts_counterexample :
    limpiar tblMixed [⟨"outliers", ⟨none, some ["zz"], none⟩⟩] =
      Except.error (PipelineError.keyError "zz")
    ∧ limpiar tblMixed [⟨"normalizacion", ⟨none, some ["zz"], none⟩⟩] =
      Except.error (PipelineError.keyError "zz") :=
  ⟨tblMixed_outliers_zz, tblMixed_norm_zz⟩

/-- C3 (amended): a listed column that is present but non-numeric is
silently skipped by outliers and normalizacion and the remaining listed
columns are still processed, while a listed column name absent from the
table raises a key error that aborts the operation. -/
theorem nonnumeric_skipped_absent_raises
    {t : Table} {c : String} {i : ℕ} (u : ℚ) (cs : List String)
    (hidx : t.colIdx c = some i) (hdty : ¬ t.colDtype i = some Dtype.numeric) :
    outlierStep u t c = Except.ok t
    ∧ normStep t c = Except.ok t
    ∧ outliersFold u t (c :: cs) = outliersFold u t cs
    ∧ normFold t (c :: cs) = normFold t cs
    ∧ (∀ (s : Table) (c2 : String), s.colIdx c2 = none →
        outlierStep u s c2 = Except.error (PipelineError.keyError c2) ∧
        normStep s c2 = Except.error (PipelineError.keyError c2)) :=
  ⟨outlierStep_skip hidx hdty, normStep_skip hidx hdty,
    outliersFold_cons_ok (outlierStep_skip hidx hdty),
    normFold_cons_ok (normStep_skip hidx hdty),
    fun _ _ h2 => ⟨outlierStep_absent h2, normStep_absent h2⟩⟩

/-- C3 witness: in tblMixed the text column is skipped unchanged by both
operations. -/
theorem nonnumeric_skipped_absent_raises_witness :
    outlierStep (3/2) tblMixed "t" = Except.ok tblMixed
    ∧ normStep tblMixed "t" = Except.ok tblMixed := by
  obtain ⟨h1, h2, -, -, -⟩ := nonnumeric_skipped_absent_raises (3/2) ([] : List String)
    (show tblMixed.colIdx "t" = some 1 by decide)
    (show ¬ tblMixed.colDtype 1 = some Dtype.numeric by decide)
  exact ⟨h1, h2⟩

/-- C4 counterexample: running [{nulos}] with no metodo applies the default
drop (one row is removed, affected 1), yet the report entry records the
parameters as the empty mapping with metodo absent, not the materialized
default drop. -/
theorem report_params_counterexample :
    limpiar tblMixed [⟨"nulos", Params.empty⟩] = Except.ok resNulosDrop
    ∧ resNulosDrop.operaciones.map (fun o => o.parametros.metodo) = [none]
    ∧ resNulosDrop.total_afectados = 1 :=
  ⟨tblMixed_nulos_run, rfl, rfl⟩

/-- C4 (amended): every report entry records the operation's tipo and its
parametros exactly as supplied by the caller; omitted parameters are not
replaced in the report by the defaults that were applied. -/
theorem report_params_as_supplied
    {t : Table} {ops : List Limpieza} {r : PipelineResult}
    (h : limpiar t ops = Except.ok r) :
    r.operaciones.map (fun o => (o.tipo, o.parametros)) =
      ops.map (fun d => (d.tipo, d.parametros)) := by
  obtain ⟨tf, rs, tot, hrun, rfl⟩ := limpiar_ok_shape h
  exact runOps_operaciones hrun

/-- C4 witness: the recorded parameter list of the concrete drop run. -/
theorem report_params_as_supplied_witness :
    resNulosDrop.operaciones.map (fun o => (o.tipo, o.parametros)) =
      [(⟨"nulos", Params.empty⟩ : Limpieza)].map (fun d => (d.tipo, d.parametros)) :=
  report_params_as_supplied tblMixed_nulos_run

/-- C5: duplicados removes exactly the rows equal to an earlier row across
all columns, keeps the first occurrence of each distinct row, reports the
number of removed rows as affected, and a second consecutive run removes
nothing and reports affected 0. -/
theorem duplicates_keep_first_idempotent (t : Table) (p : Params) :
    ∃ t2 : Table,
      applyOp t ⟨"duplicados", p⟩ = Except.ok (t2, t.rows.length - t2.rows.length)
      ∧ t2.rows = dedupFirst t.rows
      ∧ List.Sublist t2.rows t.rows
      ∧ t2.rows.Nodup
      ∧ (∀ r, r ∈ t2.rows ↔ r ∈ t.rows)
      ∧ t2.rows.length ≤ t.rows.length
      ∧ applyOp t2 ⟨"duplicados", p⟩ = Except.ok (t2, 0) := by
  refine ⟨{ t with rows := dedupFirst t.rows }, ?_, rfl, dedupFirst_sublist _,
    nodup_dedupFirst _, fun r => mem_dedupFirst r _, (dedupFirst_sublist _).length_le, ?_⟩
  · simp only [applyOp, reduceIte]
  · simp only [applyOp, reduceIte]
    rw [show dedupFirst ({ t with rows := dedupFirst t.rows } : Table).rows =
        dedupFirst t.rows from dedupFirst_idem t.rows]
    simp [Nat.sub_self]

/-- C6: nulos with metodo mean replaces every missing cell of a numeric
column having at least one value with that column's mean over its
non-missing values, leaves cells of non-numeric columns unchanged, reports
affected 0, never changes the row count, and a pipeline consisting only of
{nulos: mean} reports a final row count equal to the original. -/
theorem nulls_mean_preserves_rows
    {t : Table} {p : Params} (hwf : t.Wf) (hp : p.metodo = some "mean") :
    (opNulos t p).2 = 0
    ∧ (opNulos t p).1.rows.length = t.rows.length
    ∧ (opNulos t p).1.rows = t.rows.map (fillRow t.colMeans)
    ∧ (∀ r ∈ t.rows, ∀ i, i < t.cols.length →
        (∀ m, t.colDtype i = some Dtype.numeric → colMean (t.colNumVals i) = some m →
          (fillRow t.colMeans r).getD i Cell.missing =
            (if r.getD i Cell.missing = Cell.missing then Cell.num m
             else r.getD i Cell.missing))
        ∧ (¬ t.colDtype i = some Dtype.numeric →
          (fillRow t.colMeans r).getD i Cell.missing = r.getD i Cell.missing))
    ∧ (∀ res : PipelineResult, limpiar t [⟨"nulos", p⟩] = Except.ok res →
        res.stats.total_filas = t.rows.length ∧ res.total_afectados = 0) := by
  refine ⟨by rw [opNulos_mean_eq hp], by rw [opNulos_mean_eq hp]; simp,
    by rw [opNulos_mean_eq hp], fun r hr i hi => ⟨fun m hdty hm => ?_, fun hdty => ?_⟩,
    fun res hres => ?_⟩
  · rw [mean_fill_cell hwf hr hi, if_pos hdty, hm]
    rcases hcell : r.getD i Cell.missing with v | sv | _
    · simp
    · simp
    · simp
  · rw [mean_fill_cell hwf hr hi, if_neg hdty]
    rcases hcell : r.getD i Cell.missing with v | sv | _ <;> simp
  · obtain ⟨tf, rs, tot, hrun, rfl⟩ := limpiar_ok_shape hres
    have hap : applyOp t ⟨"nulos", p⟩ =
        Except.ok ({ t with rows := t.rows.map (fillRow t.colMeans) }, 0) := by
      have h0 : applyOp t ⟨"nulos", p⟩ = Except.ok (opNulos t p) := by
        simp only [applyOp]
        rw [if_neg (by decide), if_pos (by decide)]
      rw [h0, opNulos_mean_eq hp]
    have hrun2 : runOps t [⟨"nulos", p⟩] =
        Except.ok ({ t with rows := t.rows.map (fillRow t.colMeans) },
          [⟨"nulos", p, 0⟩], 0) := by
      unfold runOps
      rw [hap]
      dsimp only []
      norm_num [runOps]
    rw [hrun2, Except.ok.injEq, Prod.mk.injEq] at hrun
    obtain ⟨rfl, hrun⟩ := hrun
    rw [Prod.mk.injEq] at hrun
    obtain ⟨rfl, rfl⟩ := hrun
    exact ⟨by simp [computeStats], rfl⟩

/-- C6 witness: affected 0 and row count preserved on the mixed table. -/
theorem nulls_mean_preserves_rows_witness :
    (opNulos tblMixed ⟨some "mean", none, none⟩).2 = 0
    ∧ (opNulos tblMixed ⟨some "mean", none, none⟩).1.rows.length =
        tblMixed.rows.length := by
  obtain ⟨h1, h2, -, -, -⟩ := nulls_mean_preserves_rows
    (show tblMixed.Wf by decide)
    (show (⟨some "mean", none, none⟩ : Params).metodo = some "mean" from rfl)
  exact ⟨h1, h2⟩

/-- C7: normalizacion rescales each listed numeric column via
(v - min)/(max - min); when max equals min the table is left unchanged for
that column; no rows are removed and affected is 0; after the operation a
rescaled non-constant column has minimum 0 and maximum 1. -/
theorem normalization_rescale_bounds
    {t t2 : Table} {p : Params} {a : ℕ}
    (h : opNormalizacion t p = Except.ok (t2, a)) :
    a = 0
    ∧ t2.rows.length = t.rows.length
    ∧ (∀ (s s2 : Table) (c : String) (i : ℕ) (mn mx : ℚ), s.Wf →
        normStep s c = Except.ok s2 →
        s.colIdx c = some i → s.colDtype i = some Dtype.numeric →
        qmin (s.colNumVals i) = some mn → qmax (s.colNumVals i) = some mx →
        (mx = mn → s2 = s)
        ∧ (mx ≠ mn →
            s2.colNumVals i = (s.colNumVals i).map (fun v => (v - mn) / (mx - mn))
            ∧ qmin (s2.colNumVals i) = some 0
            ∧ qmax (s2.colNumVals i) = some 1)) := by
  obtain ⟨-, hlen, -, ha⟩ := opNormalizacion_ok_facts h
  refine ⟨ha, hlen, fun s s2 c i mn mx hwf hstep hidx hdty hmn hmx =>
    ⟨fun he => normStep_const hstep hidx hdty hmn hmx he, fun hne => ?_⟩⟩
  have hmap := normStep_rescale hstep hwf hidx hdty hmn hmx hne
  have hlt : mn < mx := lt_of_le_of_ne (qmin_le_qmax hmn hmx) (fun e => hne e.symm)
  have hmono := rescale_monotone hlt
  have hd : mx - mn ≠ 0 := sub_ne_zero.2 hne
  refine ⟨hmap, ?_, ?_⟩
  · rw [hmap, qmin_map_mono _ hmono, hmn, Option.map_some']
    norm_num
  · rw [hmap, qmax_map_mono _ hmono, hmx, Option.map_some']
    rw [div_self hd]

/-- C7 witness: normalizing the column [1,3] yields [0,1] with min 0, max 1. -/
theorem normalization_rescale_bounds_witness :
    tblNormRes.colNumVals 0 = [0, 1]
    ∧ qmin (tblNormRes.colNumVals 0) = some 0
    ∧ qmax (tblNormRes.colNumVals 0) = some 1 := by
  obtain ⟨-, -, h3⟩ := normalization_rescale_bounds tblNorm_op
  obtain ⟨-, h⟩ := h3 tblNorm tblNormRes "b" 0 1 3 (by decide) tblNorm_step
    (by decide) (by decide)
    (by rw [tblNorm_vals]; norm_num [qmin])
    (by rw [tblNorm_vals]; norm_num [qmax])
  obtain ⟨hmap, h0, h1⟩ := h (by norm_num)
  refine ⟨?_, h0, h1⟩
  rw [hmap, tblNorm_vals]
  norm_num

/-- C8: every operation (the four known kinds and unknown kinds alike)
preserves the table's column set and keeps the row count uniform across
columns, and the same holds for whole operation sequences, hence at every
intermediate state of the pipeline. -/
theorem operations_preserve_schema
    {t : Table} {d : Limpieza} {t2 : Table} {a : ℕ}
    (h : applyOp t d = Except.ok (t2, a)) :
    t2.cols = t.cols ∧ (t.Wf → t2.Wf)
    ∧ ∀ (s sf : Table) (ds : List Limpieza) (rs : List OpResult) (tot : ℕ),
        runOps s ds = Except.ok (sf, rs, tot) → sf.cols = s.cols ∧ (s.Wf → sf.Wf) := by
  obtain ⟨h1, h2⟩ := applyOp_preserves h
  exact ⟨h1, h2, fun s sf ds rs tot hr => runOps_preserves hr⟩

/-- C8 witness: the drop run preserves the columns and well-formedness. -/
theorem operations_preserve_schema_witness :
    tblMixedClean.cols = tblMixed.cols ∧ (tblMixed.Wf → tblMixedClean.Wf) := by
  obtain ⟨h1, h2, -⟩ := operations_preserve_schema tblMixed_nulos_apply
  exact ⟨h1, h2⟩

/-- C9: the outliers field of the aggregate statistics in the final report
is always 0, for every input table and operation list of a successful run. -/
theorem stats_outliers_always_zero
    {t : Table} {ops : List Limpieza} {r : PipelineResult}
    (h : limpiar t ops = Except.ok r) : r.stats.outliers = 0 := by
  obtain ⟨tf, rs, tot, -, rfl⟩ := limpiar_ok_shape h
  rfl

/-- C9 witness: the concrete drop run reports outliers 0. -/
theorem stats_outliers_always_zero_witness :
    resNulosDrop.stats.outliers = 0 :=
  stats_outliers_always_zero tblMixed_nulos_run

/-- C10: during outliers, a row whose cell in the numeric column being
filtered is missing is removed by that column's filter, and such removals
are counted in the operation's affected total of before minus after row
counts. -/
theorem outliers_remove_missing_cells
    {u : ℚ} {t : Table} {c : String} {i : ℕ} {t2 : Table}
    (h : outlierStep u t c = Except.ok t2)
    (hidx : t.colIdx c = some i) (hdty : t.colDtype i = some Dtype.numeric) :
    (∀ r, r.getD i Cell.missing = Cell.missing → r ∉ t2.rows)
    ∧ ∀ (s s2 : Table) (q : Params) (b : ℕ),
        opOutliers s q = Except.ok (s2, b) →
        b = s.rows.length - s2.rows.length ∧ s2.rows.length ≤ s.rows.length :=
  ⟨outlierStep_missing_removed h hidx hdty,
   fun _ _ _ _ hb => ⟨(opOutliers_ok_facts hb).2.2, (opOutliers_ok_facts hb).2.1.length_le⟩⟩

/-- C10 witness: the row with the missing cell is gone after filtering
column a of the mixed table. -/
theorem outliers_remove_missing_cells_witness :
    [Cell.missing, Cell.str "y"] ∉ tblMixedClean.rows := by
  obtain ⟨h1, -⟩ := outliers_remove_missing_cells tblMixed_step
    (show tblMixed.colIdx "a" = some 0 by decide)
    (show tblMixed.colDtype 0 = some Dtype.numeric by decide)
  exact h1 _ rfl
